import Mathlib

/-!
Verification of the contest-submission worker pool of the faction-backend
repository.

The worker subsystem (queue discovery via Redis SCAN, blocking atomic BRPOP
dequeue, submission processing with idempotent persistence, and supervisor
lifecycle) is documented in the repository (workers README embedded with the
k6 test material, `workers/run_workers.sh`) and specified in the design
specification; the Python worker module itself (`workers/entry_point.py`) is
not among the provided source files, so the worker behaviour is modelled
faithfully from the specification, as marked on each definition.
`run_workers.sh` is embedded directly from its source.
-/

namespace FactionWorkers

/-- Modelled from the spec: the Submission Envelope (spec section 3), the queue
payload created by the API producer at enqueue time.  It carries at minimum
`submission_id`, `contest_id`, `user_id`, `answers` (question id to answer)
and `submitted_at`.  The concrete wire encoding is opaque to the spec. -/
structure Envelope where
  submission_id : Nat
  contest_id : Nat
  user_id : Nat
  answers : List (Nat × Nat)
  submitted_at : Nat
deriving DecidableEq, Repr

/-- Modelled from the spec: a raw queue entry is an opaque serialized record;
decoding either recovers a Submission Envelope or fails (`MalformedEnvelope`).
Since the encoding is out of scope, an entry is modelled as either a
well-formed serialization of an envelope or an undecodable payload. -/
inductive RawEntry where
  | wellFormed (e : Envelope)
  | malformed (payload : String)
deriving DecidableEq, Repr

/-- Modelled from the spec: decoding a raw queue entry into a Submission
Envelope; returns `none` on a decode failure (`MalformedEnvelope`). -/
def decodeEntry : RawEntry → Option Envelope
  | .wellFormed e => some e
  | .malformed _ => none

/-- Modelled from the spec: a Contest Queue is a named, ordered, durable list
(a Redis list).  The producer pushes with LPUSH, which prepends at the head. -/
def lpush (q : List α) (x : α) : List α := x :: q

/-- Modelled from the spec: BRPOP pops atomically from the opposite end of the
list from LPUSH — the tail — returning the removed element and the remaining
queue, or `none` when the queue is empty (the blocking timeout elapsed). -/
def brpop (q : List α) : Option (α × List α) :=
  match q.getLast? with
  | none => none
  | some x => some (x, q.dropLast)

theorem brpop_nil : brpop ([] : List α) = none := rfl

theorem brpop_eq_some {q rest : List α} {x : α} (h : brpop q = some (x, rest)) :
    q ≠ [] ∧ rest = q.dropLast ∧ q.getLast? = some x := by
  cases hq : q.getLast? with
  | none =>
      simp [brpop, hq] at h
  | some y =>
      simp only [brpop, hq, Option.some.injEq, Prod.mk.injEq] at h
      obtain ⟨hx, hr⟩ := h
      subst hx
      refine ⟨?_, hr.symm, rfl⟩
      intro hnil
      subst hnil
      simp at hq

theorem brpop_cons (a : α) (as : List α) :
    brpop (a :: as) =
      some ((a :: as).getLast (List.cons_ne_nil a as), (a :: as).dropLast) := by
  simp [brpop, List.getLast?_eq_getLast (a :: as) (List.cons_ne_nil a as)]

/-- Modelled from the spec: a single worker repeatedly issuing the blocking
pop against one queue; `fuel` bounds the number of pop attempts, and the
worker stops as soon as a pop finds the queue empty. -/
def drainFuel (fuel : Nat) (q : List α) : List α :=
  match fuel with
  | 0 => []
  | fuel + 1 =>
    match brpop q with
    | none => []
    | some (x, rest) => x :: drainFuel fuel rest

/-- Modelled from the spec: a single worker repeatedly issuing the blocking
pop against one queue until it is empty; returns the entries in the order
they were received.  The initial queue length is enough pop attempts to
empty the queue. -/
def drain (q : List α) : List α := drainFuel q.length q

theorem drainFuel_eq_reverse (fuel : Nat) :
    ∀ (q : List α), q.length ≤ fuel → drainFuel fuel q = q.reverse := by
  induction fuel with
  | zero =>
      intro q hq
      have : q = [] := List.eq_nil_of_length_eq_zero (Nat.le_zero.mp hq)
      subst this
      simp [drainFuel]
  | succ n ih =>
      intro q hq
      cases q with
      | nil => simp [drainFuel, brpop]
      | cons a as =>
          have hne : a :: as ≠ [] := List.cons_ne_nil a as
          have hlen : (a :: as).dropLast.length ≤ n := by
            simp [List.length_dropLast] at *
            omega
          rw [drainFuel, brpop_cons]
          show (a :: as).getLast hne :: drainFuel n (a :: as).dropLast =
            (a :: as).reverse
          rw [ih _ hlen]
          conv_rhs => rw [← List.dropLast_append_getLast hne]
          rw [List.reverse_append]
          simp

theorem drain_eq_reverse (q : List α) : drain q = q.reverse :=
  drainFuel_eq_reverse q.length q (Nat.le_refl _)

/-- Modelled from the spec: the producer enqueues a list of entries in order,
each with an LPUSH onto the queue. -/
def enqueueAll (q : List α) (es : List α) : List α := es.foldl lpush q

theorem enqueueAll_eq (q es : List α) : enqueueAll q es = es.reverse ++ q := by
  induction es generalizing q with
  | nil => simp [enqueueAll]
  | cons e rest ih =>
      show enqueueAll (lpush q e) rest = (e :: rest).reverse ++ q
      rw [ih]
      simp [lpush]

/-- C4: within a single queue polled by a single worker, dequeue order equals
enqueue order (FIFO): entries enqueued in order `es` (in particular
`[A, B, C]`) into an empty queue are dequeued in exactly that order, because
LPUSH prepends at one end of the list and BRPOP removes from the opposite
end. -/
theorem fifo_per_queue (es : List α) : drain (enqueueAll [] es) = es := by
  rw [drain_eq_reverse, enqueueAll_eq]
  simp

/-- Modelled from the spec: the shared state seen by N worker processes all
popping from the same contest queue.  `queue` is the Redis list; `delivered`
is the history of deliveries, each recording which worker received which raw
entry.  Redis serializes the concurrent BRPOP calls, so an execution is an
arbitrary interleaving of atomic pops. -/
structure PopSystem where
  queue : List RawEntry
  delivered : List (Nat × RawEntry)
deriving DecidableEq, Repr

/-- Modelled from the spec: one atomic BRPOP issued by worker `w`.  If the
queue has an entry, the tail entry is removed and delivered to `w`; if the
queue is empty the pop times out and delivers nothing. -/
def popStep (s : PopSystem) (w : Nat) : PopSystem :=
  match brpop s.queue with
  | none => s
  | some (x, rest) => ⟨rest, s.delivered ++ [(w, x)]⟩

/-- Modelled from the spec: an execution of concurrent workers is a schedule
`ws`, the order in which Redis serializes the workers' atomic pops; the pops
are applied one at a time in that order. -/
def runSchedule (s : PopSystem) (ws : List Nat) : PopSystem :=
  ws.foldl popStep s

/-- Conservation of entries through one pop: the delivered entries followed by
the remaining queue in pop order are unchanged. -/
theorem popStep_conserves (s : PopSystem) (w : Nat) :
    (popStep s w).delivered.map Prod.snd ++ (popStep s w).queue.reverse =
      s.delivered.map Prod.snd ++ s.queue.reverse := by
  cases hq : brpop s.queue with
  | none => simp [popStep, hq]
  | some p =>
      obtain ⟨x, rest⟩ := p
      obtain ⟨hne, hrest, hlast⟩ := brpop_eq_some hq
      subst hrest
      have hx : s.queue.getLast hne = x := by
        rw [List.getLast?_eq_getLast s.queue hne] at hlast
        exact (Option.some.injEq _ _).mp hlast
      have hsplit : s.queue.reverse = x :: s.queue.dropLast.reverse := by
        conv_lhs => rw [← List.dropLast_append_getLast hne]
        rw [List.reverse_append, hx]
        simp
      simp [popStep, hq, hsplit]

theorem runSchedule_conserves (ws : List Nat) :
    ∀ (s : PopSystem),
      (runSchedule s ws).delivered.map Prod.snd ++ (runSchedule s ws).queue.reverse =
        s.delivered.map Prod.snd ++ s.queue.reverse := by
  induction ws with
  | nil => intro s; rfl
  | cons w rest ih =>
      intro s
      have : runSchedule s (w :: rest) = runSchedule (popStep s w) rest := rfl
      rw [this, ih (popStep s w), popStep_conserves]

/-- C1: for every schedule in which N workers concurrently issue the blocking
pop against a queue of distinct enqueued envelopes, delivery is exactly-once:
no raw entry is ever delivered twice (so no entry reaches two workers), the
delivered entries together with the remaining queue are exactly the enqueued
entries, and once the queue is drained the total number of entries received
across all workers equals the number of enqueued envelopes. -/
theorem atomic_pop_exactly_once (q : List RawEntry) (ws : List Nat)
    (hnodup : q.Nodup) :
    ((runSchedule ⟨q, []⟩ ws).delivered.map Prod.snd).Nodup ∧
    (runSchedule ⟨q, []⟩ ws).delivered.map Prod.snd ++
      (runSchedule ⟨q, []⟩ ws).queue.reverse = q.reverse ∧
    ((runSchedule ⟨q, []⟩ ws).queue = [] →
      (runSchedule ⟨q, []⟩ ws).delivered.length = q.length) := by
  have hcons := runSchedule_conserves ws ⟨q, []⟩
  simp only [List.map_nil, List.nil_append] at hcons
  have hrevnodup : q.reverse.Nodup := List.nodup_reverse.mpr hnodup
  rw [← hcons] at hrevnodup
  refine ⟨(List.Nodup.of_append_left hrevnodup), hcons, ?_⟩
  intro hempty
  have := congrArg List.length hcons
  simp [hempty] at this
  simpa using this

/-- Concrete instantiation of C1: three distinct envelopes, two workers
popping in an interleaved schedule. -/
theorem atomic_pop_exactly_once_witness :
    (letI q : List RawEntry :=
      [RawEntry.wellFormed ⟨1, 7, 10, [], 0⟩,
       RawEntry.wellFormed ⟨2, 7, 11, [], 0⟩,
       RawEntry.wellFormed ⟨3, 7, 12, [], 0⟩]
     q.Nodup ∧
      (((runSchedule ⟨q, []⟩ [0, 1, 0, 1]).delivered.map Prod.snd).Nodup ∧
       (runSchedule ⟨q, []⟩ [0, 1, 0, 1]).delivered.map Prod.snd ++
         (runSchedule ⟨q, []⟩ [0, 1, 0, 1]).queue.reverse = q.reverse ∧
       ((runSchedule ⟨q, []⟩ [0, 1, 0, 1]).queue = [] →
         (runSchedule ⟨q, []⟩ [0, 1, 0, 1]).delivered.length = q.length))) :=
  ⟨by decide, atomic_pop_exactly_once _ [0, 1, 0, 1] (by decide)⟩

/-- Modelled from the spec: a Processing Result, the persisted grading record
keyed by `submission_id`, derived from one envelope by the Submission
Processor. -/
structure ProcessingResult where
  submission_id : Nat
  contest_id : Nat
  user_id : Nat
  score : Nat
deriving DecidableEq, Repr

/-- Modelled from the spec: the attempts/results store is the ordered list of
Processing Result rows written so far. -/
abbrev ResultStore := List ProcessingResult

/-- Modelled from the spec: grading applies the same validation logic as the
synchronous path, scoring the envelope against an answer key mapping each
question id to its correct answer. -/
def grade (answerKey : Nat → Nat) (e : Envelope) : ProcessingResult :=
  { submission_id := e.submission_id
    contest_id := e.contest_id
    user_id := e.user_id
    score := (e.answers.filter (fun p => answerKey p.1 == p.2)).length }

/-- Modelled from the spec: outcome of one persistence write attempt.  `ok`
means a new row was created; `conflict` (PersistenceConflict) means the
idempotent write collided with an existing result for the same
`submission_id`. -/
inductive PersistOutcome where
  | ok
  | conflict
deriving DecidableEq, Repr

/-- Modelled from the spec: the idempotent upsert on `submission_id` — if a
row for the identifier already exists the store is left unchanged and the
write reports a conflict; otherwise the new row is appended. -/
def persistResult (db : ResultStore) (r : ProcessingResult) :
    ResultStore × PersistOutcome :=
  if db.any (fun r0 => r0.submission_id == r.submission_id) then (db, .conflict)
  else (db ++ [r], .ok)

/-- Modelled from the spec: number of Processing Result rows for a given
submission identifier. -/
def countRows (db : ResultStore) (sid : Nat) : Nat :=
  (db.filter (fun r0 => r0.submission_id == sid)).length

/-- Modelled from the spec: outcome of the Submission Processor on one raw
entry, after the entry has already left the queue. -/
inductive ProcOutcome where
  | processed (sid : Nat)
  | malformedEnvelope (payload : String)
  | processingFailure (sid : Nat)
  | persistenceLost (sid : Nat)
deriving DecidableEq, Repr

/-- Modelled from the spec: log lines emitted by the Submission Processor. -/
inductive LogLine where
  | logMalformed (payload : String)
  | logProcessingFailed (e : Envelope)
  | logPersistFailed (e : Envelope)
  | logProcessed (sid : Nat)
  | logAlreadyProcessed (sid : Nat)
deriving DecidableEq, Repr

/-- Modelled from the spec: the raw serialized payload of a queue entry, as it
appears in a MalformedEnvelope log line. -/
def rawPayload : RawEntry → String
  | .wellFormed e => toString e.submission_id
  | .malformed p => p

/-- Modelled from the spec: the Submission Processor on one raw entry that a
pop already removed from the queue.  It decodes the entry (a decode failure is
a MalformedEnvelope: logged with the raw payload, dropped, no result row);
grades it — `gradeOk` says whether the grading logic completes on this
envelope, or raises on valid but unprocessable data (a ProcessingFailure:
logged with the full envelope context, dropped, no result row); then persists
the result idempotently when the persistence layer is reachable (`infraOk`).
A PersistenceConflict is treated as success.  If the persistence write fails,
the failure is only logged with the envelope context and the entry is dropped
— there is no re-queue and no dead-letter queue. -/
def processEntry (answerKey : Nat → Nat) (gradeOk infraOk : Bool)
    (raw : RawEntry) (db : ResultStore) (logs : List LogLine) :
    ResultStore × List LogLine × ProcOutcome :=
  match decodeEntry raw with
  | none =>
      (db, logs ++ [.logMalformed (rawPayload raw)], .malformedEnvelope (rawPayload raw))
  | some e =>
      if gradeOk then
        if infraOk then
          let res := persistResult db (grade answerKey e)
          match res.2 with
          | .ok => (res.1, logs ++ [.logProcessed e.submission_id], .processed e.submission_id)
          | .conflict =>
              (res.1, logs ++ [.logAlreadyProcessed e.submission_id], .processed e.submission_id)
        else (db, logs ++ [.logPersistFailed e], .persistenceLost e.submission_id)
      else (db, logs ++ [.logProcessingFailed e], .processingFailure e.submission_id)

/-- Modelled from the spec: the per-worker view of the system — the contest
queue, the results store and the log. -/
structure WorkerState where
  queue : List RawEntry
  db : ResultStore
  logs : List LogLine
deriving DecidableEq, Repr

/-- Modelled from the spec: one iteration of the dequeue-and-process loop: a
blocking pop, then, if an entry was returned, one Submission Processor call on
it.  `gradeOk` says whether grading completes on the popped entry and
`infraOk` whether the persistence layer is reachable during this
iteration. -/
def workerStep (answerKey : Nat → Nat) (gradeOk infraOk : Bool)
    (s : WorkerState) : WorkerState :=
  match brpop s.queue with
  | none => s
  | some (raw, rest) =>
      let r := processEntry answerKey gradeOk infraOk raw s.db s.logs
      ⟨rest, r.1, r.2.1⟩

theorem countRows_eq_zero_iff_any_eq_false (db : ResultStore) (sid : Nat) :
    countRows db sid = 0 ↔ db.any (fun r0 => r0.submission_id == sid) = false := by
  rw [countRows, List.length_eq_zero, List.filter_eq_nil_iff, List.any_eq_false]

theorem countRows_append (db db2 : ResultStore) (sid : Nat) :
    countRows (db ++ db2) sid = countRows db sid + countRows db2 sid := by
  simp [countRows, List.filter_append]

/-- C2: the pop removes an envelope from the queue atomically at pop time,
not at successful-processing time: if the persistence write for a popped
envelope then fails, the envelope is permanently lost — the queue no longer
contains its entry, the results store is unchanged and holds no Processing
Result for it, and the only trace is a log entry (at-most-once processing:
nothing is re-queued and there is no dead-letter queue). -/
theorem pop_is_destructive_persist_failure_loses_envelope
    (answerKey : Nat → Nat) (s : WorkerState) (raw : RawEntry)
    (rest : List RawEntry) (e : Envelope)
    (hpop : brpop s.queue = some (raw, rest))
    (hdec : decodeEntry raw = some e)
    (honce : s.queue.count raw = 1)
    (hnores : countRows s.db e.submission_id = 0) :
    raw ∉ (workerStep answerKey true false s).queue ∧
    (workerStep answerKey true false s).db = s.db ∧
    countRows (workerStep answerKey true false s).db e.submission_id = 0 ∧
    (workerStep answerKey true false s).logs = s.logs ++ [.logPersistFailed e] := by
  obtain ⟨hne, hrest, hlast⟩ := brpop_eq_some hpop
  have hx : s.queue.getLast hne = raw := by
    rw [List.getLast?_eq_getLast s.queue hne] at hlast
    exact (Option.some.injEq _ _).mp hlast
  have hstep : workerStep answerKey true false s =
      ⟨rest, s.db, s.logs ++ [.logPersistFailed e]⟩ := by
    rw [workerStep, hpop]
    simp [processEntry, hdec]
  have hsplit : s.queue = s.queue.dropLast ++ [raw] := by
    conv_lhs => rw [← List.dropLast_append_getLast hne, hx]
  have hcount : s.queue.dropLast.count raw = 0 := by
    rw [hsplit, List.count_append] at honce
    simp [List.count_singleton] at honce
    omega
  refine ⟨?_, by rw [hstep], by rw [hstep]; exact hnores, by rw [hstep]⟩
  rw [hstep]
  subst hrest
  exact (List.count_eq_zero.mp hcount)

/-- Sample envelope used to instantiate proved contracts on concrete data. -/
def sampleEnvelope : Envelope := ⟨5, 1, 2, [(1, 1)], 9⟩

/-- Sample worker state holding one well-formed entry and empty store/log. -/
def sampleState : WorkerState := ⟨[RawEntry.wellFormed sampleEnvelope], [], []⟩

/-- Concrete instantiation of C2: a one-envelope queue whose persistence
write fails. -/
theorem pop_is_destructive_witness :
    brpop sampleState.queue = some (RawEntry.wellFormed sampleEnvelope, []) ∧
    decodeEntry (RawEntry.wellFormed sampleEnvelope) = some sampleEnvelope ∧
    sampleState.queue.count (RawEntry.wellFormed sampleEnvelope) = 1 ∧
    countRows sampleState.db sampleEnvelope.submission_id = 0 ∧
    (RawEntry.wellFormed sampleEnvelope ∉
       (workerStep (fun _ => 0) true false sampleState).queue ∧
     (workerStep (fun _ => 0) true false sampleState).db = sampleState.db ∧
     countRows (workerStep (fun _ => 0) true false sampleState).db
       sampleEnvelope.submission_id = 0 ∧
     (workerStep (fun _ => 0) true false sampleState).logs =
       sampleState.logs ++ [.logPersistFailed sampleEnvelope]) :=
  ⟨by decide, by decide, by decide, by decide,
   pop_is_destructive_persist_failure_loses_envelope (fun _ => 0) sampleState
     (RawEntry.wellFormed sampleEnvelope) [] sampleEnvelope
     (by decide) (by decide) (by decide) (by decide)⟩

/-- Behaviour of the Submission Processor when the idempotent write collides
with an existing row: the store is unchanged and the outcome is success. -/
theorem processEntry_conflict (answerKey : Nat → Nat) (e : Envelope)
    (db : ResultStore) (logs : List LogLine)
    (hmem : db.any (fun r0 => r0.submission_id == e.submission_id) = true) :
    processEntry answerKey true true (.wellFormed e) db logs =
      (db, logs ++ [.logAlreadyProcessed e.submission_id],
        .processed e.submission_id) := by
  have hp : persistResult db (grade answerKey e) = (db, .conflict) := by
    rw [persistResult]
    have hg : db.any
        (fun r0 => r0.submission_id == (grade answerKey e).submission_id) = true := by
      simpa [grade] using hmem
    rw [if_pos hg]
  simp [processEntry, decodeEntry, hp]

/-- C3: the persistence write is idempotent on `submission_id`: writing the
same result twice creates the row once (first write ok, second write reports
a PersistenceConflict and leaves the store unchanged, with exactly one row
for the identifier and the score counted once), and the Submission Processor
treats a conflicting write as success, not as an error. -/
theorem persistence_idempotent_on_submission_id
    (db : ResultStore) (r : ProcessingResult)
    (hfresh : countRows db r.submission_id = 0) :
    (persistResult db r).2 = .ok ∧
    (persistResult (persistResult db r).1 r).2 = .conflict ∧
    (persistResult (persistResult db r).1 r).1 = (persistResult db r).1 ∧
    countRows (persistResult (persistResult db r).1 r).1 r.submission_id = 1 ∧
    (∀ (answerKey : Nat → Nat) (logs : List LogLine) (e : Envelope),
      grade answerKey e = r →
      (processEntry answerKey true true (.wellFormed e) (persistResult db r).1 logs).2.2 =
        .processed e.submission_id ∧
      (processEntry answerKey true true (.wellFormed e) (persistResult db r).1 logs).1 =
        (persistResult db r).1) := by
  have hany : db.any (fun r0 => r0.submission_id == r.submission_id) = false :=
    (countRows_eq_zero_iff_any_eq_false db r.submission_id).mp hfresh
  have h1 : persistResult db r = (db ++ [r], .ok) := by
    rw [persistResult, hany]
    simp
  have h1a : (persistResult db r).1 = db ++ [r] := by rw [h1]
  have h1b : (persistResult db r).2 = .ok := by rw [h1]
  have hany2 : (db ++ [r]).any (fun r0 => r0.submission_id == r.submission_id) = true := by
    simp
  have h2 : persistResult (db ++ [r]) r = (db ++ [r], .conflict) := by
    rw [persistResult, hany2]
    simp
  have hcount : countRows (db ++ [r]) r.submission_id = 1 := by
    rw [countRows_append, hfresh]
    simp [countRows]
  refine ⟨h1b, by rw [h1a, h2], by rw [h1a, h2], by rw [h1a, h2]; exact hcount, ?_⟩
  intro answerKey logs e hg
  have hsid : e.submission_id = r.submission_id := by
    rw [← hg]
    simp [grade]
  have hany3 : (db ++ [r]).any (fun r0 => r0.submission_id == e.submission_id) = true := by
    rw [hsid]
    simp
  rw [h1a, processEntry_conflict answerKey e (db ++ [r]) logs hany3]
  exact ⟨rfl, rfl⟩

/-- Concrete instantiation of C3: the same result written twice into an empty
store. -/
theorem persistence_idempotent_witness :
    (letI r : ProcessingResult := ⟨5, 1, 2, 1⟩
     countRows [] r.submission_id = 0 ∧
     ((persistResult [] r).2 = .ok ∧
      (persistResult (persistResult [] r).1 r).2 = .conflict ∧
      (persistResult (persistResult [] r).1 r).1 = (persistResult [] r).1 ∧
      countRows (persistResult (persistResult [] r).1 r).1 r.submission_id = 1 ∧
      (∀ (answerKey : Nat → Nat) (logs : List LogLine) (e : Envelope),
        grade answerKey e = r →
        (processEntry answerKey true true (.wellFormed e) (persistResult [] r).1 logs).2.2 =
          .processed e.submission_id ∧
        (processEntry answerKey true true (.wellFormed e) (persistResult [] r).1 logs).1 =
          (persistResult [] r).1))) :=
  ⟨by decide, persistence_idempotent_on_submission_id [] _ (by decide)⟩

/-- Every single processor call only ever appends to the results store: the
previous rows are left in place and unchanged. -/
theorem processEntry_db_append_only (answerKey : Nat → Nat)
    (gradeOk infraOk : Bool) (raw : RawEntry) (db : ResultStore)
    (logs : List LogLine) :
    db <+: (processEntry answerKey gradeOk infraOk raw db logs).1 := by
  cases raw with
  | malformed p => simp [processEntry, decodeEntry]
  | wellFormed e =>
      cases gradeOk with
      | false => simp [processEntry, decodeEntry]
      | true =>
          cases infraOk with
          | false => simp [processEntry, decodeEntry]
          | true =>
              by_cases hmem :
                  db.any (fun r0 => r0.submission_id == (grade answerKey e).submission_id) = true
              · have hp : persistResult db (grade answerKey e) = (db, .conflict) := by
                  rw [persistResult, if_pos hmem]
                simp [processEntry, decodeEntry, hp]
              · have hp : persistResult db (grade answerKey e) = (db ++ [grade answerKey e], .ok) := by
                  rw [persistResult, if_neg hmem]
                simp [processEntry, decodeEntry, hp]

/-- C9: processing a successfully decoded and graded envelope performs
exactly one write to persistent storage — the new store is the old store with
exactly the envelope's own Processing Result appended — and no worker step
ever mutates or deletes an existing Processing Result: for every worker step,
with or without reachable persistence, the previous store is a prefix of the
new one (append-only output). -/
theorem one_write_per_envelope_append_only
    (answerKey : Nat → Nat) (s : WorkerState) (raw : RawEntry)
    (rest : List RawEntry) (e : Envelope)
    (hpop : brpop s.queue = some (raw, rest))
    (hdec : decodeEntry raw = some e)
    (hfresh : countRows s.db e.submission_id = 0) :
    (workerStep answerKey true true s).db = s.db ++ [grade answerKey e] ∧
    (∀ (gradeOk infraOk : Bool) (t : WorkerState),
      t.db <+: (workerStep answerKey gradeOk infraOk t).db) := by
  constructor
  · have hany : s.db.any (fun r0 => r0.submission_id == e.submission_id) = false :=
      (countRows_eq_zero_iff_any_eq_false s.db e.submission_id).mp hfresh
    have hanyg : s.db.any
        (fun r0 => r0.submission_id == (grade answerKey e).submission_id) = false := by
      simpa [grade] using hany
    have hp : persistResult s.db (grade answerKey e) =
        (s.db ++ [grade answerKey e], .ok) := by
      rw [persistResult, if_neg (by simp [hanyg])]
    rw [workerStep, hpop]
    simp [processEntry, hdec, hp]
  · intro gradeOk infraOk t
    cases hq : brpop t.queue with
    | none => simp [workerStep, hq]
    | some p =>
        obtain ⟨raw2, rest2⟩ := p
        have : (workerStep answerKey gradeOk infraOk t).db =
            (processEntry answerKey gradeOk infraOk raw2 t.db t.logs).1 := by
          rw [workerStep, hq]
        rw [this]
        exact processEntry_db_append_only answerKey gradeOk infraOk raw2 t.db t.logs

/-- Concrete instantiation of C9: one successful envelope appends exactly its
own result row. -/
theorem one_write_per_envelope_witness :
    brpop sampleState.queue = some (RawEntry.wellFormed sampleEnvelope, []) ∧
    decodeEntry (RawEntry.wellFormed sampleEnvelope) = some sampleEnvelope ∧
    countRows sampleState.db sampleEnvelope.submission_id = 0 ∧
    ((workerStep (fun _ => 1) true true sampleState).db =
      sampleState.db ++ [grade (fun _ => 1) sampleEnvelope] ∧
     (∀ (gradeOk infraOk : Bool) (t : WorkerState),
       t.db <+: (workerStep (fun _ => 1) gradeOk infraOk t).db)) :=
  ⟨by decide, by decide, by decide,
   one_write_per_envelope_append_only (fun _ => 1) sampleState
     (RawEntry.wellFormed sampleEnvelope) [] sampleEnvelope
     (by decide) (by decide) (by decide)⟩

theorem reverse_eq_getLast_cons (q : List α) (hne : q ≠ []) :
    q.reverse = q.getLast hne :: q.dropLast.reverse := by
  conv_lhs => rw [← List.dropLast_append_getLast hne]
  rw [List.reverse_append]
  simp

/-- Modelled from the spec: submission identifiers of the decodable entries
of a list of raw entries. -/
def validSids (l : List RawEntry) : List Nat :=
  (l.filterMap decodeEntry).map (fun e => e.submission_id)

/-- Modelled from the spec: the log line one entry produces when processed
with reachable persistence against a store holding no row for it yet. -/
def entryLog (raw : RawEntry) : LogLine :=
  match decodeEntry raw with
  | none => .logMalformed (rawPayload raw)
  | some e => .logProcessed e.submission_id

/-- Modelled from the spec: a worker processing, with grading completing and
persistence reachable, a sequence of raw entries in the order the pops
returned them. -/
def processSeq (answerKey : Nat → Nat) :
    List RawEntry → ResultStore → List LogLine → ResultStore × List LogLine
  | [], db, logs => (db, logs)
  | raw :: rest, db, logs =>
      let r := processEntry answerKey true true raw db logs
      processSeq answerKey rest r.1 r.2.1

/-- Modelled from the spec: the dequeue-and-process loop with a bounded
number of pop attempts, grading completing and persistence reachable
throughout: each iteration pops one entry and dispatches it to the
Submission Processor. -/
def workerLoopFuel (answerKey : Nat → Nat) : Nat → WorkerState → WorkerState
  | 0, s => s
  | fuel + 1, s =>
    match brpop s.queue with
    | none => s
    | some (raw, rest) =>
        let r := processEntry answerKey true true raw s.db s.logs
        workerLoopFuel answerKey fuel ⟨rest, r.1, r.2.1⟩

/-- Modelled from the spec: run the dequeue-and-process loop until the queue
is empty; the initial queue length bounds the number of pops needed. -/
def processAll (answerKey : Nat → Nat) (s : WorkerState) : WorkerState :=
  workerLoopFuel answerKey s.queue.length s

theorem workerLoopFuel_succ_pop (answerKey : Nat → Nat) (n : Nat)
    (s : WorkerState) (raw : RawEntry) (rest : List RawEntry)
    (hq : brpop s.queue = some (raw, rest)) :
    workerLoopFuel answerKey (n + 1) s =
      workerLoopFuel answerKey n
        ⟨rest, (processEntry answerKey true true raw s.db s.logs).1,
          (processEntry answerKey true true raw s.db s.logs).2.1⟩ := by
  simp only [workerLoopFuel, hq]

theorem workerLoopFuel_eq_processSeq (answerKey : Nat → Nat) (fuel : Nat) :
    ∀ (q : List RawEntry) (db : ResultStore) (logs : List LogLine),
      q.length ≤ fuel →
      workerLoopFuel answerKey fuel ⟨q, db, logs⟩ =
        ⟨[], (processSeq answerKey q.reverse db logs).1,
          (processSeq answerKey q.reverse db logs).2⟩ := by
  induction fuel with
  | zero =>
      intro q db logs hq
      have : q = [] := List.eq_nil_of_length_eq_zero (Nat.le_zero.mp hq)
      subst this
      simp [workerLoopFuel, processSeq]
  | succ n ih =>
      intro q db logs hq
      cases q with
      | nil => simp [workerLoopFuel, brpop, processSeq]
      | cons a as =>
          have hne : (a :: as) ≠ [] := List.cons_ne_nil a as
          have hq2 : (a :: as).dropLast.length ≤ n := by
            simp [List.length_dropLast] at *
            omega
          rw [workerLoopFuel_succ_pop answerKey n ⟨a :: as, db, logs⟩
            ((a :: as).getLast hne) ((a :: as).dropLast) (brpop_cons a as),
            ih _ _ _ hq2, reverse_eq_getLast_cons (a :: as) hne]
          rfl

theorem processAll_eq_processSeq (answerKey : Nat → Nat) (q : List RawEntry)
    (db : ResultStore) (logs : List LogLine) :
    processAll answerKey ⟨q, db, logs⟩ =
      ⟨[], (processSeq answerKey q.reverse db logs).1,
        (processSeq answerKey q.reverse db logs).2⟩ :=
  workerLoopFuel_eq_processSeq answerKey q.length q db logs (Nat.le_refl _)

theorem processSeq_spec (answerKey : Nat → Nat) :
    ∀ (l : List RawEntry) (db : ResultStore) (logs : List LogLine),
      (validSids l).Nodup →
      (∀ sid ∈ validSids l, countRows db sid = 0) →
      (processSeq answerKey l db logs).1 =
        db ++ (l.filterMap decodeEntry).map (grade answerKey) ∧
      (processSeq answerKey l db logs).2 = logs ++ l.map entryLog := by
  intro l
  induction l with
  | nil =>
      intro db logs _ _
      simp [processSeq]
  | cons raw rest ih =>
      intro db logs h1 h2
      have hstep1 : (processSeq answerKey (raw :: rest) db logs) =
          processSeq answerKey rest (processEntry answerKey true true raw db logs).1
            (processEntry answerKey true true raw db logs).2.1 := rfl
      cases hdec : decodeEntry raw with
      | none =>
          have hpe : processEntry answerKey true true raw db logs =
              (db, logs ++ [.logMalformed (rawPayload raw)],
                .malformedEnvelope (rawPayload raw)) := by
            rw [processEntry, hdec]
          have hpe1 : (processEntry answerKey true true raw db logs).1 = db := by rw [hpe]
          have hpe2 : (processEntry answerKey true true raw db logs).2.1 =
              logs ++ [.logMalformed (rawPayload raw)] := by rw [hpe]
          have hv : validSids (raw :: rest) = validSids rest := by
            simp [validSids, List.filterMap_cons, hdec]
          rw [hv] at h1
          have h2r : ∀ sid ∈ validSids rest, countRows db sid = 0 := by
            intro sid hs
            exact h2 sid (by rw [hv]; exact hs)
          obtain ⟨ihd, ihl⟩ :=
            ih db (logs ++ [.logMalformed (rawPayload raw)]) h1 h2r
          constructor
          · rw [hstep1, hpe1, hpe2, ihd]
            simp [List.filterMap_cons, hdec]
          · rw [hstep1, hpe1, hpe2, ihl]
            simp [entryLog, hdec]
      | some e =>
          have hsidmem : e.submission_id ∈ validSids (raw :: rest) := by
            simp [validSids, List.filterMap_cons, hdec]
          have hfresh : countRows db e.submission_id = 0 := h2 _ hsidmem
          have hany : db.any (fun r0 => r0.submission_id == e.submission_id) = false :=
            (countRows_eq_zero_iff_any_eq_false db e.submission_id).mp hfresh
          have hanyg : db.any
              (fun r0 => r0.submission_id == (grade answerKey e).submission_id) = false := by
            simpa [grade] using hany
          have hp : persistResult db (grade answerKey e) =
              (db ++ [grade answerKey e], .ok) := by
            rw [persistResult, if_neg (by simp [hanyg])]
          have hpe : processEntry answerKey true true raw db logs =
              (db ++ [grade answerKey e], logs ++ [.logProcessed e.submission_id],
                .processed e.submission_id) := by
            rw [processEntry, hdec]
            simp [hp]
          have hpe1 : (processEntry answerKey true true raw db logs).1 =
              db ++ [grade answerKey e] := by rw [hpe]
          have hpe2 : (processEntry answerKey true true raw db logs).2.1 =
              logs ++ [.logProcessed e.submission_id] := by rw [hpe]
          have hv : validSids (raw :: rest) = e.submission_id :: validSids rest := by
            simp [validSids, List.filterMap_cons, hdec]
          rw [hv] at h1
          have hnotmem : e.submission_id ∉ validSids rest := (List.nodup_cons.mp h1).1
          have h1r : (validSids rest).Nodup := (List.nodup_cons.mp h1).2
          have h2r : ∀ sid ∈ validSids rest,
              countRows (db ++ [grade answerKey e]) sid = 0 := by
            intro sid hs
            have hd : countRows db sid = 0 :=
              h2 sid (by rw [hv]; exact List.mem_cons_of_mem _ hs)
            have hne : e.submission_id ≠ sid := fun h => hnotmem (h ▸ hs)
            have hone : countRows [grade answerKey e] sid = 0 := by
              simp [countRows, grade, hne]
            rw [countRows_append, hd, hone]
          obtain ⟨ihd, ihl⟩ :=
            ih (db ++ [grade answerKey e]) (logs ++ [.logProcessed e.submission_id]) h1r h2r
          constructor
          · rw [hstep1, hpe1, hpe2, ihd]
            simp [List.filterMap_cons, hdec]
          · rw [hstep1, hpe1, hpe2, ihl]
            simp [entryLog, hdec]

/-- C5: a raw entry that fails to decode makes the Submission Processor fail
with a MalformedEnvelope error, log the raw payload, drop the entry without
retry and create no Processing Result; and a queue containing both
undecodable and valid entries still gets every valid entry processed — after
the worker drains the queue, the results store holds exactly the grades of
the decodable entries (in pop order), the log records each entry once (the
malformed ones by their raw payload), so the malformed entry affected only
itself. -/
theorem malformed_payload_isolation (answerKey : Nat → Nat) (q : List RawEntry)
    (hnodup : (validSids q.reverse).Nodup) :
    (∀ (p : String) (db : ResultStore) (logs : List LogLine)
        (gradeOk infraOk : Bool),
      processEntry answerKey gradeOk infraOk (.malformed p) db logs =
        (db, logs ++ [.logMalformed p], .malformedEnvelope p)) ∧
    (processAll answerKey ⟨q, [], []⟩).queue = [] ∧
    (processAll answerKey ⟨q, [], []⟩).db =
      (q.reverse.filterMap decodeEntry).map (grade answerKey) ∧
    (processAll answerKey ⟨q, [], []⟩).logs = q.reverse.map entryLog ∧
    (∀ e : Envelope, RawEntry.wellFormed e ∈ q →
      grade answerKey e ∈ (processAll answerKey ⟨q, [], []⟩).db) ∧
    (∀ p : String, RawEntry.malformed p ∈ q →
      LogLine.logMalformed p ∈ (processAll answerKey ⟨q, [], []⟩).logs) := by
  have hall := processAll_eq_processSeq answerKey q [] []
  have hspec := processSeq_spec answerKey q.reverse [] [] hnodup
    (by intro sid _; simp [countRows])
  obtain ⟨hdb, hlogs⟩ := hspec
  refine ⟨?_, ?_, ?_, ?_, ?_, ?_⟩
  · intro p db logs gradeOk infraOk
    cases gradeOk <;> cases infraOk <;> rw [processEntry] <;> rfl
  · rw [hall]
  · rw [hall]
    simpa using hdb
  · rw [hall]
    simpa using hlogs
  · intro e hmem
    rw [hall]
    show grade answerKey e ∈ (processSeq answerKey q.reverse [] []).1
    rw [hdb]
    simp only [List.nil_append]
    exact List.mem_map_of_mem _
      (List.mem_filterMap.mpr ⟨.wellFormed e, List.mem_reverse.mpr hmem, rfl⟩)
  · intro p hmem
    rw [hall]
    show LogLine.logMalformed p ∈ (processSeq answerKey q.reverse [] []).2
    rw [hlogs]
    simp only [List.nil_append]
    have : entryLog (.malformed p) = .logMalformed p := rfl
    rw [← this]
    exact List.mem_map_of_mem _ (List.mem_reverse.mpr hmem)

/-- Concrete instantiation of C5: a queue holding a malformed entry between
two valid envelopes. -/
theorem malformed_payload_isolation_witness :
    (letI q : List RawEntry :=
      [RawEntry.wellFormed ⟨1, 7, 10, [], 0⟩,
       RawEntry.malformed "not-an-envelope",
       RawEntry.wellFormed ⟨2, 7, 11, [], 0⟩]
     (validSids q.reverse).Nodup ∧
      ((∀ (p : String) (db : ResultStore) (logs : List LogLine)
          (gradeOk infraOk : Bool),
        processEntry (fun _ => 0) gradeOk infraOk (.malformed p) db logs =
          (db, logs ++ [.logMalformed p], .malformedEnvelope p)) ∧
       (processAll (fun _ => 0) ⟨q, [], []⟩).queue = [] ∧
       (processAll (fun _ => 0) ⟨q, [], []⟩).db =
         (q.reverse.filterMap decodeEntry).map (grade (fun _ => 0)) ∧
       (processAll (fun _ => 0) ⟨q, [], []⟩).logs = q.reverse.map entryLog ∧
       (∀ e : Envelope, RawEntry.wellFormed e ∈ q →
         grade (fun _ => 0) e ∈ (processAll (fun _ => 0) ⟨q, [], []⟩).db) ∧
       (∀ p : String, RawEntry.malformed p ∈ q →
         LogLine.logMalformed p ∈ (processAll (fun _ => 0) ⟨q, [], []⟩).logs))) :=
  ⟨by decide, malformed_payload_isolation (fun _ => 0) _ (by decide)⟩

/-- Modelled from the spec: lifecycle phases of a Worker Supervisor process:
Starting, Running, Draining, Stopped. -/
inductive Phase where
  | starting
  | running
  | draining
  | stopped
deriving DecidableEq, Repr

/-- Modelled from the spec: events one iteration of a Running supervisor loop
can observe: a popped entry (with `gradeOk` saying whether the grading logic
completes on it or raises a ProcessingFailure, and `infraOk` whether the
persistence layer is reachable during its processing), an idle pop timeout, a
store-unreachable failure of the periodic queue discovery, a transient store
or persistence outage seen at the loop level, or an external termination
signal. -/
inductive LoopEvent where
  | entry (raw : RawEntry) (gradeOk infraOk : Bool)
  | popTimeout
  | discoveryFailure
  | infraDown
  | shutdownSignal
deriving DecidableEq, Repr

/-- Modelled from the spec: supervisor process state — lifecycle phase, the
results store and log the processor writes to, and the current retry backoff
level. -/
structure SupState where
  phase : Phase
  db : ResultStore
  logs : List LogLine
  backoff : Nat
deriving DecidableEq, Repr

/-- Modelled from the spec: one iteration of the Worker Supervisor loop.  A
per-envelope failure (malformed envelope, grading ProcessingFailure, or a
lost persistence write) is contained inside the Submission Processor call:
it is logged and the loop continues Running.  A transient infrastructure
error — store or persistence unreachable, including during queue discovery —
raises the retry backoff and the loop continues Running.  Only a shutdown
signal leaves Running, into Draining; a Draining supervisor finishes into
Stopped; Stopped is final. -/
def supervisorStep (answerKey : Nat → Nat) (s : SupState) (ev : LoopEvent) :
    SupState :=
  match s.phase with
  | .starting => { s with phase := .running }
  | .running =>
    match ev with
    | .entry raw gradeOk infraOk =>
        let r := processEntry answerKey gradeOk infraOk raw s.db s.logs
        match r.2.2 with
        | .processed _ => { s with db := r.1, logs := r.2.1, backoff := 0 }
        | .malformedEnvelope _ => { s with db := r.1, logs := r.2.1 }
        | .processingFailure _ => { s with db := r.1, logs := r.2.1 }
        | .persistenceLost _ =>
            { s with db := r.1, logs := r.2.1, backoff := s.backoff + 1 }
    | .popTimeout => s
    | .discoveryFailure => { s with backoff := s.backoff + 1 }
    | .infraDown => { s with backoff := s.backoff + 1 }
    | .shutdownSignal => { s with phase := .draining }
  | .draining => { s with phase := .stopped }
  | .stopped => s

/-- Modelled from the spec: outcome of the Starting phase — failing to
establish any store connection is an unrecoverable startup error and is fatal
to the process; otherwise the supervisor comes up. -/
inductive StartupResult where
  | started (s : SupState)
  | fatalStartupError
deriving DecidableEq, Repr

/-- Modelled from the spec: the Starting phase: establish the store
connection, then begin the lifecycle with empty store view and zero
backoff. -/
def startup (storeConnOk : Bool) : StartupResult :=
  if storeConnOk then .started ⟨.starting, [], [], 0⟩ else .fatalStartupError

/-- C6: no per-envelope error — MalformedEnvelope, ProcessingFailure (the
grading logic raising on valid but unprocessable data), or a failed
persistence write — ever propagates out of the Submission Processor call to
terminate the Worker Supervisor loop, and no transient infrastructure error
(store or persistence unreachable, including during discovery) ever
terminates the process: on every event other than a shutdown signal —
including popped entries whose processing ends in any of the three
per-envelope errors — a Running supervisor is still Running afterwards;
transient infrastructure errors are retried with increased backoff; a
grading failure is logged with the full envelope context and the entry
dropped with no result row; and only the unrecoverable startup error (no
store connection) is fatal. -/
theorem errors_never_terminate_supervisor (answerKey : Nat → Nat)
    (s : SupState) (ev : LoopEvent)
    (hrun : s.phase = .running) (hnotsig : ev ≠ .shutdownSignal) :
    (supervisorStep answerKey s ev).phase = .running ∧
    ((ev = .discoveryFailure ∨ ev = .infraDown) →
      (supervisorStep answerKey s ev).backoff = s.backoff + 1) ∧
    (∀ (e : Envelope) (db : ResultStore) (logs : List LogLine)
        (infraOk : Bool),
      processEntry answerKey false infraOk (.wellFormed e) db logs =
        (db, logs ++ [.logProcessingFailed e],
          .processingFailure e.submission_id)) ∧
    (∀ b : Bool, startup b = .fatalStartupError ↔ b = false) := by
  refine ⟨?_, ?_, ?_, ?_⟩
  · cases ev with
    | entry raw gradeOk infraOk =>
        cases hout : (processEntry answerKey gradeOk infraOk raw s.db s.logs).2.2 <;>
          simp [supervisorStep, hrun, hout]
    | popTimeout => simp [supervisorStep, hrun]
    | discoveryFailure => simp [supervisorStep, hrun]
    | infraDown => simp [supervisorStep, hrun]
    | shutdownSignal => exact absurd rfl hnotsig
  · intro hev
    rcases hev with h | h <;> subst h <;> simp [supervisorStep, hrun]
  · intro e db logs infraOk
    cases infraOk <;> rw [processEntry] <;> rfl
  · intro b
    cases b <;> simp [startup]

/-- Concrete instantiation of C6: a Running supervisor observing an entry
whose grading raises a ProcessingFailure. -/
theorem errors_never_terminate_supervisor_witness :
    (letI s : SupState := ⟨.running, [], [], 0⟩
     letI ev : LoopEvent := .entry (.wellFormed sampleEnvelope) false true
     s.phase = .running ∧ ev ≠ LoopEvent.shutdownSignal ∧
      ((supervisorStep (fun _ => 0) s ev).phase = .running ∧
       ((ev = LoopEvent.discoveryFailure ∨ ev = LoopEvent.infraDown) →
         (supervisorStep (fun _ => 0) s ev).backoff = s.backoff + 1) ∧
       (∀ (e : Envelope) (db : ResultStore) (logs : List LogLine)
           (infraOk : Bool),
         processEntry (fun _ => 0) false infraOk (.wellFormed e) db logs =
           (db, logs ++ [.logProcessingFailed e],
             .processingFailure e.submission_id)) ∧
       (∀ b : Bool, startup b = .fatalStartupError ↔ b = false))) :=
  ⟨by decide, by decide,
   errors_never_terminate_supervisor (fun _ => 0) ⟨.running, [], [], 0⟩
     (.entry (.wellFormed sampleEnvelope) false true) (by decide) (by decide)⟩

/-- Modelled from the spec: timing configuration of a worker process — the
bounded blocking-pop timeout and the mandatory shutdown grace deadline, in
clock ticks. -/
structure ShutdownCfg where
  timeout : Nat
  grace : Nat
deriving DecidableEq, Repr

/-- Modelled from the spec: timed supervisor state — the lifecycle phase, how
long the current blocking pop has been idle, how long draining has run, how
many units of in-flight processing remain, and whether a termination signal
has arrived. -/
structure TimedState where
  phase : Phase
  popElapsed : Nat
  drainElapsed : Nat
  inflight : Nat
  signalled : Bool
deriving DecidableEq, Repr

/-- Modelled from the spec: one clock tick of a worker process.  A Starting
process becomes Running.  While Running on an idle queue, the blocking pop
returns after `timeout` ticks; at that point the shutdown flag is checked and
the supervisor either re-enters the pop or transitions to Draining.  While
Draining, in-flight work proceeds bounded by the grace deadline; with no
in-flight work, or when the grace deadline is reached, the process Stops
(forced termination at the deadline).  Stopped is terminal. -/
def tick (cfg : ShutdownCfg) (s : TimedState) : TimedState :=
  match s.phase with
  | .starting => { s with phase := .running }
  | .running =>
      if cfg.timeout ≤ s.popElapsed + 1 then
        if s.signalled then
          { s with phase := .draining, popElapsed := 0, drainElapsed := 0 }
        else { s with popElapsed := 0 }
      else { s with popElapsed := s.popElapsed + 1 }
  | .draining =>
      if s.inflight = 0 ∨ cfg.grace ≤ s.drainElapsed + 1 then
        { s with phase := .stopped }
      else { s with inflight := s.inflight - 1, drainElapsed := s.drainElapsed + 1 }
  | .stopped => s

/-- Modelled from the spec: the allowed lifecycle transitions — a phase may
persist, and otherwise only Starting to Running, Running to Draining, and
Draining to Stopped may occur. -/
def PhaseStepOK (p q : Phase) : Prop :=
  p = q ∨ (p = .starting ∧ q = .running) ∨ (p = .running ∧ q = .draining) ∨
    (p = .draining ∧ q = .stopped)

theorem tick_phase_ok (cfg : ShutdownCfg) (s : TimedState) :
    PhaseStepOK s.phase (tick cfg s).phase := by
  cases hph : s.phase with
  | starting => simp [tick, hph, PhaseStepOK]
  | running =>
      by_cases h1 : cfg.timeout ≤ s.popElapsed + 1
      · by_cases h2 : s.signalled <;> simp [tick, hph, h1, h2, PhaseStepOK]
      · simp [tick, hph, h1, PhaseStepOK]
  | draining =>
      by_cases h1 : s.inflight = 0 ∨ cfg.grace ≤ s.drainElapsed + 1 <;>
        simp [tick, hph, h1, PhaseStepOK]
  | stopped => simp [tick, hph, PhaseStepOK]

theorem tick_stopped (cfg : ShutdownCfg) (s : TimedState)
    (h : s.phase = .stopped) : tick cfg s = s := by
  simp [tick, h]

theorem tick_iterate_stopped (cfg : ShutdownCfg) (k : Nat) (s : TimedState)
    (h : s.phase = .stopped) : ((tick cfg)^[k] s).phase = .stopped := by
  induction k with
  | zero => simpa using h
  | succ n ih =>
      rw [Function.iterate_succ_apply, tick_stopped cfg s h]
      exact ih

theorem stops_within (cfg : ShutdownCfg) :
    ∀ (n : Nat) (s : TimedState),
      s.phase = .running → s.signalled = true → s.inflight = 0 →
      cfg.timeout ≤ s.popElapsed + n + 1 →
      ((tick cfg)^[n + 2] s).phase = .stopped := by
  intro n
  induction n with
  | zero =>
      intro s hph hsig hinf hto
      have h1 : tick cfg s =
          { s with phase := .draining, popElapsed := 0, drainElapsed := 0 } := by
        simp [tick, hph, hsig, if_pos hto]
      have h2 : tick cfg (tick cfg s) =
          { s with phase := .stopped, popElapsed := 0, drainElapsed := 0 } := by
        rw [h1]
        simp [tick, hinf]
      show ((tick cfg)^[2] s).phase = .stopped
      rw [Function.iterate_succ_apply, Function.iterate_succ_apply,
        Function.iterate_zero_apply]
      rw [h1] at h2
      rw [h1, h2]
  | succ n ih =>
      intro s hph hsig hinf hto
      by_cases hnow : cfg.timeout ≤ s.popElapsed + 1
      · have h1 : tick cfg s =
            { s with phase := .draining, popElapsed := 0, drainElapsed := 0 } := by
          simp [tick, hph, hsig, if_pos hnow]
        have h2 : tick cfg (tick cfg s) =
            { s with phase := .stopped, popElapsed := 0, drainElapsed := 0 } := by
          rw [h1]
          simp [tick, hinf]
        show ((tick cfg)^[n + 3] s).phase = .stopped
        rw [Function.iterate_succ_apply, Function.iterate_succ_apply]
        rw [h1] at h2
        rw [h1, h2]
        exact tick_iterate_stopped cfg _ _ rfl
      · have h1 : tick cfg s = { s with popElapsed := s.popElapsed + 1 } := by
          simp [tick, hph, if_neg hnow]
        show ((tick cfg)^[n + 2 + 1] s).phase = .stopped
        rw [Function.iterate_succ_apply, h1]
        exact ih { s with popElapsed := s.popElapsed + 1 } hph hsig hinf
          (by simp; omega)

/-- C7: every worker process follows the state machine Starting, Running,
Draining, Stopped with no other transitions (first conjunct, for every state
and tick); and on an external termination signal received while Running and
blocked in an idle pop, it exits — reaching the terminal Stopped phase —
within `timeout + grace` clock ticks, never blocking indefinitely. -/
theorem supervisor_lifecycle_shutdown_bound (cfg : ShutdownCfg)
    (s : TimedState) (htime : 0 < cfg.timeout) (hgrace : 0 < cfg.grace)
    (hph : s.phase = .running) (hsig : s.signalled = true)
    (hinf : s.inflight = 0) (hpop : s.popElapsed ≤ cfg.timeout) :
    (∀ (c : ShutdownCfg) (t : TimedState), PhaseStepOK t.phase (tick c t).phase) ∧
    ∃ k, k ≤ cfg.timeout + cfg.grace ∧ ((tick cfg)^[k] s).phase = .stopped := by
  refine ⟨tick_phase_ok, ?_⟩
  refine ⟨cfg.timeout - s.popElapsed - 1 + 2, ?_, ?_⟩
  · omega
  · exact stops_within cfg (cfg.timeout - s.popElapsed - 1) s hph hsig hinf
      (by omega)

/-- Concrete instantiation of C7: a signal arriving one tick into an idle
pop, with a three-tick pop timeout and a two-tick grace deadline. -/
theorem supervisor_lifecycle_shutdown_bound_witness :
    (letI cfg : ShutdownCfg := ⟨3, 2⟩
     letI s : TimedState := ⟨.running, 1, 0, 0, true⟩
     0 < cfg.timeout ∧ 0 < cfg.grace ∧ s.phase = .running ∧
      s.signalled = true ∧ s.inflight = 0 ∧ s.popElapsed ≤ cfg.timeout ∧
      ((∀ (c : ShutdownCfg) (t : TimedState),
        PhaseStepOK t.phase (tick c t).phase) ∧
       ∃ k, k ≤ cfg.timeout + cfg.grace ∧ ((tick cfg)^[k] s).phase = .stopped)) :=
  ⟨by decide, by decide, by decide, by decide, by decide, by decide,
   supervisor_lifecycle_shutdown_bound ⟨3, 2⟩ ⟨.running, 1, 0, 0, true⟩
     (by decide) (by decide) (by decide) (by decide) (by decide) (by decide)⟩

/-- Modelled from the spec: the fixed, documented queue naming template that
producer and consumer must agree on exactly; a queue name is this template
applied to a contest id. -/
def queueNameTemplate : String := "contest:submissions:"

/-- Modelled from the spec: the queue name for one contest id. -/
def queueName (contestId : String) : String := queueNameTemplate ++ contestId

/-- Modelled from the spec: whether a store key matches the discovery scan
pattern, namely starts with the fixed template. -/
def matchesQueuePattern (key : String) : Bool :=
  decide (key.data.take queueNameTemplate.data.length = queueNameTemplate.data)

/-- Modelled from the spec: Queue Discovery enumerates the store key space
(a cursor-based SCAN), keeps the keys matching the pattern and deduplicates
them; zero matches yield the empty set as a normal, non-error result. -/
def discoverQueues (keys : List String) : List String :=
  (keys.filter matchesQueuePattern).dedup

theorem matchesQueuePattern_queueName (contestId : String) :
    matchesQueuePattern (queueName contestId) = true := by
  simp only [matchesQueuePattern, queueName, String.data_append,
    decide_eq_true_eq]
  exact List.take_left _ _

/-- C8: for every store state, Queue Discovery returns a duplicate-free set
containing exactly the store keys that match the fixed pattern
`contest:submissions:` followed by a contest id; zero matches produce the
empty set as a normal result (the return type carries no error case); and no
fixed upper bound on the number of queues is assumed — for every n some store
makes discovery return at least n queue names. -/
theorem queue_discovery_correct (keys : List String) :
    (discoverQueues keys).Nodup ∧
    (∀ k : String, k ∈ discoverQueues keys ↔
      k ∈ keys ∧ matchesQueuePattern k = true) ∧
    ((∀ k ∈ keys, matchesQueuePattern k = false) → discoverQueues keys = []) ∧
    (∀ n : Nat, ∃ store : List String, n ≤ (discoverQueues store).length) := by
  refine ⟨List.nodup_dedup _, ?_, ?_, ?_⟩
  · intro k
    rw [discoverQueues, List.mem_dedup, List.mem_filter]
  · intro hnone
    rw [discoverQueues, List.filter_eq_nil_iff.mpr ?_]
    · rfl
    · intro k hk
      simp [hnone k hk]
  · intro n
    refine ⟨(List.range n).map
      (fun i => queueName (String.mk (List.replicate i 'a'))), ?_⟩
    have hinj : Function.Injective
        (fun i => queueName (String.mk (List.replicate i 'a'))) := by
      intro i j hij
      have hlen : (queueName (String.mk (List.replicate i 'a'))).data.length =
          (queueName (String.mk (List.replicate j 'a'))).data.length :=
        congrArg (fun s => s.data.length) hij
      have h2 : queueNameTemplate.data.length + i =
          queueNameTemplate.data.length + j := by
        simpa [queueName, String.data_append] using hlen
      omega
    have hall : ∀ k ∈ (List.range n).map
        (fun i => queueName (String.mk (List.replicate i 'a'))),
        matchesQueuePattern k = true := by
      intro k hk
      obtain ⟨i, _, rfl⟩ := List.mem_map.mp hk
      exact matchesQueuePattern_queueName _
    have hnodup : ((List.range n).map
        (fun i => queueName (String.mk (List.replicate i 'a')))).Nodup :=
      (List.nodup_range n).map hinj
    rw [discoverQueues, List.filter_eq_self.mpr hall,
      List.dedup_eq_self.mpr hnodup]
    simp

/-- Embedded from src/workers/run_workers.sh: one process the script
launches — the interpreter and script it runs, the `WORKER_TYPE` environment
value it is given, and whether it is started in the background (`&`). -/
structure LaunchedProcess where
  interpreter : String
  script : String
  workerTypeEnv : String
  background : Bool
deriving DecidableEq, Repr

/-- Embedded from src/workers/run_workers.sh lines 3 to 9: the script starts
the submission worker (`WORKER_TYPE=submission python ./entry_point.py &`)
and then the grading worker (`WORKER_TYPE=grading python ./entry_point.py
&`), both in the background, recording their PIDs. -/
def runWorkersLaunches : List LaunchedProcess :=
  [⟨"python", "./entry_point.py", "submission", true⟩,
   ⟨"python", "./entry_point.py", "grading", true⟩]

/-- Embedded from src/workers/run_workers.sh line 15 (`wait $SUBMISSION_PID
$GRADING_PID`): the indices, into the launch list, of the processes whose
PIDs the final `wait` names. -/
def runWorkersWaitIndices : List Nat := [0, 1]

/-- Embedded from src/workers/run_workers.sh: the script reaches its end
exactly once every process named in its `wait` command has exited. -/
def runWorkersDone (exited : Nat → Bool) : Bool :=
  runWorkersWaitIndices.all exited

/-- C10: run_workers.sh launches exactly two worker processes, both running
`python ./entry_point.py`, both in the background (so concurrently), the
first with `WORKER_TYPE=submission` and the second with
`WORKER_TYPE=grading`; it waits on exactly the PIDs of those two launched
processes, and it terminates precisely when both have exited. -/
theorem run_workers_spec :
    runWorkersLaunches.length = 2 ∧
    (∀ p ∈ runWorkersLaunches,
      p.interpreter = "python" ∧ p.script = "./entry_point.py" ∧
      p.background = true) ∧
    runWorkersLaunches.map (fun p => p.workerTypeEnv) =
      ["submission", "grading"] ∧
    runWorkersWaitIndices = List.range runWorkersLaunches.length ∧
    (∀ exited : Nat → Bool, runWorkersDone exited = (exited 0 && exited 1)) := by
  refine ⟨rfl, by decide, rfl, rfl, ?_⟩
  intro exited
  simp [runWorkersDone, runWorkersWaitIndices]

end FactionWorkers
